import Mathlib

set_option maxHeartbeats 1000000

/-!
Verification development for the audio-music-video-generator repository.

The file shallowly embeds the core of the repository in Lean 4:

* `src/lib/srt-parser.ts` — the SRT caption parser (`parseSRT`, `parseTime`,
  `getCurrentLyric`, `getUpcomingLyric`), embedded over `List Char` with
  JavaScript string semantics (`trim`, `split`, `parseInt`, the time-range
  regular expression, tag stripping) spelled out as executable functions.
* `src/lib/visualizations.ts` — the `VisualizationEngine` class: the seven
  per-frame render routines and the `start`/`stop`/`requestAnimationFrame`
  lifecycle, modelled as an explicit world-state machine over a host callback
  registry.
* the AI-image compositor `renderAIVisualsInternal` from the preview
  component, which falls back to `start('milkdrop', …)` on an empty image
  list.

JavaScript numbers are modelled as exact rationals (`ℚ`); transcendental
functions (`Math.cos`, `Math.sin`, `Math.PI`) and the random stream
(`Math.random`) are abstract parameters of an `Env` record, since none of the
verified properties depend on their values.  Recursions that are not
structural in the source are given an explicit fuel equal to the input length
(the fuel is provably sufficient), or a well-founded measure.
-/

/-! ## JavaScript string primitives -/

/-- Whitespace class used by JavaScript `trim`, the `\s` regex class and the
blank-line block separator (ASCII subset of ECMAScript WhiteSpace and line
terminators). -/
def jsWhitespace (c : Char) : Bool :=
  c == ' ' || c == '\t' || c == '\n' || c == '\r' || c == '\x0b' || c == '\x0c'

/-- JavaScript `String.prototype.trim`: remove whitespace from both ends. -/
def jsTrim (l : List Char) : List Char :=
  ((l.dropWhile jsWhitespace).reverse.dropWhile jsWhitespace).reverse

/-- Suffix of a whitespace run that follows its last newline.  Used to model
the greedy-with-backtracking match of the separator regex `\n\s*\n`: the
separator consumes through the last `\n` of the whitespace run. -/
def afterLastNewline (w : List Char) : List Char :=
  (w.reverse.takeWhile (· != '\n')).reverse

/-- Model of `content.split(/\n\s*\n/)`: scan left to right; a `\n` whose
following whitespace run contains another `\n` starts a separator, which
extends through the last `\n` of that run.  The fuel argument only makes the
recursion structural; `fuel = length of the remaining input` always
suffices, because every step consumes at least one character. -/
def splitBlocksAux : ℕ → List Char → List Char → List (List Char)
  | _, acc, [] => [acc.reverse]
  | 0, acc, rest => [acc.reverse ++ rest]
  | fuel + 1, acc, c :: rest =>
    if c == '\n' && (rest.takeWhile jsWhitespace).contains '\n' then
      acc.reverse ::
        splitBlocksAux fuel []
          (afterLastNewline (rest.takeWhile jsWhitespace) ++ rest.dropWhile jsWhitespace)
    else
      splitBlocksAux fuel (c :: acc) rest

/-- Model of `content.split(/\n\s*\n/)` on the whole input. -/
def splitBlocks (l : List Char) : List (List Char) :=
  splitBlocksAux l.length [] l

/-- Value of a digit character in the given radix (only radices 10 and 16
arise, mirroring `parseInt` with its `0x` autodetection). -/
def digitVal (base : ℕ) (c : Char) : Option ℕ :=
  if '0' ≤ c ∧ c ≤ '9' ∧ c.toNat - '0'.toNat < base then some (c.toNat - '0'.toNat)
  else if base = 16 ∧ 'a' ≤ c ∧ c ≤ 'f' then some (c.toNat - 'a'.toNat + 10)
  else if base = 16 ∧ 'A' ≤ c ∧ c ≤ 'F' then some (c.toNat - 'A'.toNat + 10)
  else none

/-- JavaScript `parseInt(s)` with no radix argument: skip leading whitespace,
optional sign, `0x`/`0X` switches to hexadecimal, then the maximal digit
prefix; `none` models `NaN` (no digits at all). -/
def jsParseInt (l : List Char) : Option ℤ :=
  let t := l.dropWhile jsWhitespace
  let st : ℤ × List Char :=
    match t with
    | '+' :: r => (1, r)
    | '-' :: r => (-1, r)
    | _ => (1, t)
  let bt : ℕ × List Char :=
    match st.2 with
    | '0' :: 'x' :: r => (16, r)
    | '0' :: 'X' :: r => (16, r)
    | _ => (10, st.2)
  let ds := bt.2.takeWhile (fun c => (digitVal bt.1 c).isSome)
  if ds = [] then none
  else some (st.1 * ((ds.foldl (fun a c => a * bt.1 + (digitVal bt.1 c).getD 0) 0 : ℕ) : ℤ))

/-! ## The SRT time-range regular expression

`/(\d{2}):(\d{2}):(\d{2}),(\d{3})\s*-->\s*(\d{2}):(\d{2}):(\d{2}),(\d{3})/`
is matched unanchored: the engine tries every start position from the left.
At a given position the pattern is deterministic (the only star, `\s*`, is
greedy over a class that excludes the following `-`). -/

/-- Read exactly `n` decimal digits, accumulating their value. -/
def readDigits : ℕ → ℕ → List Char → Option (ℕ × List Char)
  | 0, acc, l => some (acc, l)
  | n + 1, acc, c :: l =>
    if '0' ≤ c ∧ c ≤ '9' then readDigits n (acc * 10 + (c.toNat - '0'.toNat)) l else none
  | _ + 1, _, [] => none

/-- Expect one specific character. -/
def expectChar (c : Char) : List Char → Option (List Char)
  | d :: l => if d = c then some l else none
  | [] => none

/-- Match `\d{2}:\d{2}:\d{2},\d{3}` at the current position. -/
def matchTimePoint (l : List Char) : Option ((ℕ × ℕ × ℕ × ℕ) × List Char) := do
  let (h, l) ← readDigits 2 0 l
  let l ← expectChar ':' l
  let (m, l) ← readDigits 2 0 l
  let l ← expectChar ':' l
  let (s, l) ← readDigits 2 0 l
  let l ← expectChar ',' l
  let (ms, l) ← readDigits 3 0 l
  some ((h, m, s, ms), l)

/-- Match the full time-range pattern at the current position. -/
def matchTimeRangeAt (l : List Char) : Option ((ℕ × ℕ × ℕ × ℕ) × (ℕ × ℕ × ℕ × ℕ)) := do
  let (a, l) ← matchTimePoint l
  let l := l.dropWhile jsWhitespace
  let l ← expectChar '-' l
  let l ← expectChar '-' l
  let l ← expectChar '>' l
  let l := l.dropWhile jsWhitespace
  let (b, _) ← matchTimePoint l
  some (a, b)

/-- Unanchored search: `lines[1].match(timeRegex)`, first matching start
position from the left. -/
def searchTimeRange : List Char → Option ((ℕ × ℕ × ℕ × ℕ) × (ℕ × ℕ × ℕ × ℕ))
  | [] => none
  | c :: r =>
    match matchTimeRangeAt (c :: r) with
    | some g => some g
    | none => searchTimeRange r

/-- Model of `text.replace(/<[^>]*>/g, '')`: at a `<` that has a later `>`,
delete through the first such `>` and continue; a `<` with no following `>`
does not match and is kept.  Fuel equal to the input length suffices. -/
def stripTagsAux : ℕ → List Char → List Char
  | _, [] => []
  | 0, l => l
  | fuel + 1, c :: r =>
    if c == '<' && r.contains '>' then
      stripTagsAux fuel ((r.dropWhile (· != '>')).drop 1)
    else
      c :: stripTagsAux fuel r

/-- Strip HTML-like tags, as in the source's `replace(/<[^>]*>/g, '')`. -/
def stripTags (l : List Char) : List Char :=
  stripTagsAux l.length l

/-- A complete HTML-like tag `<[^>]*>` occurs somewhere in the text: some `<`
is followed, further right, by some `>`. -/
def hasTag : List Char → Bool
  | [] => false
  | c :: r => (c == '<' && r.contains '>') || hasTag r

/-! ## The SRT parser (`src/lib/srt-parser.ts`) -/

/-- Entry record of the parser (`SRTEntry`). -/
structure SRTEntry where
  id : ℤ
  startTime : ℚ
  endTime : ℚ
  text : List Char
deriving DecidableEq, Repr

/-- The source's `parseTime`, already applied to the numeric captures:
`hours*3600 + minutes*60 + seconds + milliseconds/1000`. -/
def parseTime (h m s ms : ℕ) : ℚ :=
  (h : ℚ) * 3600 + (m : ℚ) * 60 + (s : ℚ) + (ms : ℚ) / 1000

/-- One iteration of the block loop of `parseSRT`: trim, split into lines,
require at least 3 lines, a parsable id, a matching time-range line; the text
is the remaining lines joined by newlines with tags stripped.  `none` models
`continue` (the block is skipped). -/
def parseBlock (block : List Char) : Option SRTEntry :=
  match (jsTrim block).splitOn '\n' with
  | l0 :: l1 :: l2 :: rest =>
    match jsParseInt l0 with
    | none => none
    | some n =>
      match searchTimeRange l1 with
      | none => none
      | some ((h1, m1, s1, ms1), (h2, m2, s2, ms2)) =>
        some { id := n
               startTime := parseTime h1 m1 s1 ms1
               endTime := parseTime h2 m2 s2 ms2
               text := stripTags (List.intercalate ['\n'] (l2 :: rest)) }
  | _ => none

/-- Stable insertion for the comparator `(a, b) => a.startTime - b.startTime`:
the new element goes after all existing elements with a key not larger than
its own, which is the stable-sort placement. -/
def insertByStart (e : SRTEntry) : List SRTEntry → List SRTEntry
  | [] => [e]
  | f :: r => if e.startTime < f.startTime then e :: f :: r else f :: insertByStart e r

/-- Stable sort by `startTime`, modelling `entries.sort((a, b) => a.startTime - b.startTime)`. -/
def sortByStart : List SRTEntry → List SRTEntry
  | [] => []
  | e :: r => insertByStart e (sortByStart r)

/-- The source `parseSRT`: split the trimmed content into blank-line-separated
blocks, parse each block (skipping failures), sort by start time. -/
def parseSRT (content : List Char) : List SRTEntry :=
  sortByStart ((splitBlocks (jsTrim content)).filterMap parseBlock)

/-- The source `getCurrentLyric`: first entry whose interval contains the
time, else `none` (the JS `|| null`). -/
def getCurrentLyric (entries : List SRTEntry) (currentTime : ℚ) : Option SRTEntry :=
  entries.find? (fun e => decide (e.startTime ≤ currentTime) && decide (currentTime ≤ e.endTime))

/-- The source `getUpcomingLyric`: first entry starting strictly after the
time, else `none`. -/
def getUpcomingLyric (entries : List SRTEntry) (currentTime : ℚ) : Option SRTEntry :=
  entries.find? (fun e => decide (currentTime < e.startTime))

/-! ## Visualization library (`src/lib/visualizations.ts`)

Drawing is modelled as a list of canvas commands.  The abstract environment
`Env` supplies the canvas dimensions, the per-frame spectral and waveform
snapshots (byte values 0–255, as delivered by `getByteFrequencyData` /
`getByteTimeDomainData`), a wall-clock stream (`Date.now() * 0.001` at each
frame), the `Math.random` stream (consumed left to right through a counter),
and abstract stand-ins for `Math.cos`, `Math.sin` and `Math.PI`. -/

/-- Configuration record (`VisualizationConfig`). -/
structure VisualizationConfig where
  sensitivity : ℚ
  colorScheme : String
  smoothing : ℚ
  beatDetection : Bool
deriving DecidableEq, Repr

/-- One canvas-context command, with exact rational arguments. -/
inductive CanvasCmd
  | setFillRGBA (r g b a : ℚ)
  | setFillHSLA (h s l a : ℚ)
  | setFillStr (c : String)
  | setFillLinearGradient (x0 y0 x1 y1 : ℚ) (stops : List (ℚ × String))
  | setStrokeStr (c : String)
  | setStrokeHSLA (h s l a : ℚ)
  | setLineWidth (w : ℚ)
  | setShadowColor (c : String)
  | setShadowBlur (b : ℚ)
  | fillRect (x y w h : ℚ)
  | beginPath
  | moveTo (x y : ℚ)
  | lineTo (x y : ℚ)
  | arc (x y r a0 a1 : ℚ)
  | fill
  | stroke
  | save
  | restore
  | translate (x y : ℚ)
  | scale (sx sy : ℚ)
  | setFont (f : String)
  | setTextAlign (a : String)
  | fillText (s : String) (x y : ℚ)
deriving DecidableEq, Repr

/-- Abstract host environment of one engine run. -/
structure Env where
  width : ℚ
  height : ℚ
  pi : ℚ
  cos : ℚ → ℚ
  sin : ℚ → ℚ
  rnd : ℕ → ℚ
  data : ℕ → List ℕ
  timeData : ℕ → List ℕ
  timeAt : ℕ → ℚ

/-- Truncation toward zero, as JavaScript's implicit division in `%`. -/
def ratTrunc (q : ℚ) : ℤ :=
  if 0 ≤ q then ⌊q⌋ else ⌈q⌉

/-- JavaScript `%` on numbers: remainder with the sign of the dividend. -/
def jsRem (a b : ℚ) : ℚ :=
  a - b * ratTrunc (a / b)

/-- The `milkdrop` renderer: faded background, then one dot per frequency bin
on a rotating circle. -/
def renderMilkdrop (env : Env) (config : VisualizationConfig) (data : List ℕ) (time : ℚ) :
    List CanvasCmd :=
  let N : ℚ := data.length
  CanvasCmd.setFillRGBA 0 0 0 (1/10) :: CanvasCmd.fillRect 0 0 env.width env.height ::
    (List.range data.length).flatMap (fun i =>
      let amplitude : ℚ := (data.getD i 0 : ℚ) / 255
      let angle : ℚ := (i : ℚ) / N * env.pi * 2
      let radius : ℚ := 100 + amplitude * 150
      let x := env.width / 2 + env.cos (angle + time) * radius
      let y := env.height / 2 + env.sin (angle + time) * radius
      let hue := jsRem ((i : ℚ) / N * 360 + time * 50) 360
      [CanvasCmd.setFillHSLA hue 70 60 amplitude, CanvasCmd.beginPath,
       CanvasCmd.arc x y (amplitude * 10) 0 (env.pi * 2), CanvasCmd.fill])

/-- The recursive fractal branch (`drawFractalBranch`), for the nonnegative
depths the program actually reaches: `depth = 0` draws nothing, otherwise one
segment is drawn and the routine recurses twice at `depth - 1` with the
length scaled by 0.7 and the angle offset by `0.5 + amplitude` either way. -/
def drawFractalBranch (env : Env) : ℚ → ℚ → ℚ → ℚ → ℕ → ℚ → List CanvasCmd
  | _, _, _, _, 0, _ => []
  | x, y, angle, length, depth + 1, amplitude =>
    let endX := x + env.cos angle * length
    let endY := y + env.sin angle * length
    let newLength := length * (7/10)
    CanvasCmd.beginPath :: CanvasCmd.moveTo x y :: CanvasCmd.lineTo endX endY ::
      CanvasCmd.stroke ::
      (drawFractalBranch env endX endY (angle - 1/2 - amplitude) newLength depth amplitude ++
       drawFractalBranch env endX endY (angle + 1/2 + amplitude) newLength depth amplitude)

/-- Fueled evaluator of `drawFractalBranch` over integer depths, the type of
the JavaScript argument.  The source guard is exactly `depth === 0`, so a
negative starting depth never reaches the base case: the evaluator then
returns `none` for every fuel, which is how divergence is expressed. -/
def drawFractalBranchFuel (env : Env) :
    ℕ → ℚ → ℚ → ℚ → ℚ → ℤ → ℚ → Option (List CanvasCmd)
  | 0, _, _, _, _, _, _ => none
  | fuel + 1, x, y, angle, length, depth, amplitude =>
    if depth = 0 then some []
    else
      let endX := x + env.cos angle * length
      let endY := y + env.sin angle * length
      let newLength := length * (7/10)
      match
        drawFractalBranchFuel env fuel endX endY (angle - 1/2 - amplitude) newLength
          (depth - 1) amplitude,
        drawFractalBranchFuel env fuel endX endY (angle + 1/2 + amplitude) newLength
          (depth - 1) amplitude with
      | some c1, some c2 =>
        some (CanvasCmd.beginPath :: CanvasCmd.moveTo x y :: CanvasCmd.lineTo endX endY ::
          CanvasCmd.stroke :: (c1 ++ c2))
      | _, _ => none

/-- Divergence of the fractal branch at a given starting depth: no amount of
fuel completes the evaluation, whatever the environment and the geometric
arguments. -/
def fractalBranchDiverges (depth : ℤ) : Prop :=
  ∀ (env : Env) (fuel : ℕ) (x y angle length amplitude : ℚ),
    drawFractalBranchFuel env fuel x y angle length depth amplitude = none

/-- The `fractals` renderer: faded background, stroke setup, then 8 base
angles each starting a depth-4 fractal branch from the canvas center. -/
def renderFractals (env : Env) (config : VisualizationConfig) (data : List ℕ) (time : ℚ) :
    List CanvasCmd :=
  let avgAmplitude : ℚ := ((data.map (fun v => (v : ℚ))).sum) / (data.length : ℚ) / 255
  CanvasCmd.setFillRGBA 0 0 0 (1/20) :: CanvasCmd.fillRect 0 0 env.width env.height ::
    CanvasCmd.setStrokeHSLA (jsRem (time * 50) 360) 70 60 (4/5) :: CanvasCmd.setLineWidth 2 ::
    (List.range 8).flatMap (fun i =>
      let angle := (i : ℚ) / 8 * env.pi * 2 + time
      let length := 50 + avgAmplitude * 200
      drawFractalBranch env (env.width / 2) (env.height / 2) angle length 4 avgAmplitude)

/-- The `fire` renderer: one gradient flame per bin, wiggled by a sinusoidal
noise term, stepped every 5 vertical pixels while `y < flameHeight`. -/
def renderFire (env : Env) (config : VisualizationConfig) (data : List ℕ) (time : ℚ) :
    List CanvasCmd :=
  let N : ℚ := data.length
  CanvasCmd.setFillRGBA 0 0 0 (1/10) :: CanvasCmd.fillRect 0 0 env.width env.height ::
    (List.range data.length).flatMap (fun i =>
      let amplitude : ℚ := (data.getD i 0 : ℚ) / 255
      let x : ℚ := (i : ℚ) / N * env.width
      let flameHeight : ℚ := amplitude * env.height * (4/5)
      let steps := (⌈flameHeight / 5⌉).toNat
      CanvasCmd.setFillLinearGradient x env.height x (env.height - flameHeight)
          [(0, "#ff4500"), (1/2, "#ff8c00"), (1, "#ffff00")] ::
        CanvasCmd.beginPath :: CanvasCmd.moveTo x env.height ::
        ((List.range steps).map (fun j =>
          let y : ℚ := 5 * j
          let noise := env.sin (time * 5 + y / 10 + (i : ℚ) / 10) * 10 * (y / flameHeight)
          CanvasCmd.lineTo (x + noise) (env.height - y)) ++
         [CanvasCmd.lineTo (x + 10) env.height, CanvasCmd.fill]))

/-- Peak scan of the `electricity` renderer: interior bins (the loop runs
`i = 1 … bufferLength - 2`) whose value strictly exceeds both neighbors and
100; each peak carries its normalized amplitude `dataArray[i] / 255`. -/
def electricityPeaks (data : List ℕ) : List (ℕ × ℚ) :=
  ((List.range data.length).filter (fun i =>
      decide (1 ≤ i) && decide (i + 1 < data.length) &&
      decide (data.getD (i - 1) 0 < data.getD i 0) &&
      decide (data.getD (i + 1) 0 < data.getD i 0) &&
      decide (100 < data.getD i 0))).map
    (fun i => (i, (data.getD i 0 : ℚ) / 255))

/-- Peak indices only. -/
def electricityPeakIndices (data : List ℕ) : List ℕ :=
  (electricityPeaks data).map Prod.fst

/-- The recursive `drawLightning`: return at `segments ≤ 0`; otherwise draw
the jittered two-segment polyline through the displaced midpoint and, while
`segments > 1`, recurse on both halves with `segments - 1`.  The random
stream is consumed through the counter `k`; the result returns the advanced
counter. -/
def drawLightning (env : Env) (x1 y1 x2 y2 : ℚ) (segments : ℚ) (k : ℕ) :
    List CanvasCmd × ℕ :=
  if segments ≤ 0 then ([], k)
  else
    let midX := (x1 + x2) / 2 + (env.rnd k - 1/2) * 50
    let midY := (y1 + y2) / 2 + (env.rnd (k + 1) - 1/2) * 50
    let draw := [CanvasCmd.beginPath, CanvasCmd.moveTo x1 y1, CanvasCmd.lineTo midX midY,
                 CanvasCmd.lineTo x2 y2, CanvasCmd.stroke]
    if h : 1 < segments then
      let r1 := drawLightning env x1 y1 midX midY (segments - 1) (k + 2)
      let r2 := drawLightning env midX midY x2 y2 (segments - 1) r1.2
      (draw ++ r1.1 ++ r2.1, r2.2)
    else (draw, k + 2)
termination_by (⌈segments⌉).toNat
decreasing_by
  all_goals
    have hc : (⌈segments - 1⌉ : ℤ) = ⌈segments⌉ - 1 := by
      simpa using Int.ceil_sub_int segments 1
    have h1 : (1 : ℤ) < ⌈segments⌉ := by
      rwa [Int.lt_ceil]
    omega

/-- Call-tree trace of `drawLightning`: the `segments` argument of every
invocation, in call order.  It mirrors the control flow of `drawLightning`
exactly (same guards, same `segments - 1` recursion). -/
def drawLightningArgs (segments : ℚ) : List ℚ :=
  if segments ≤ 0 then [segments]
  else if h : 1 < segments then
    segments :: (drawLightningArgs (segments - 1) ++ drawLightningArgs (segments - 1))
  else [segments]
termination_by (⌈segments⌉).toNat
decreasing_by
  all_goals
    have hc : (⌈segments - 1⌉ : ℤ) = ⌈segments⌉ - 1 := by
      simpa using Int.ceil_sub_int segments 1
    have h1 : (1 : ℤ) < ⌈segments⌉ := by
      rwa [Int.lt_ceil]
    omega

/-- Initial `segments` argument of each lightning bolt launched by
`renderElectricity`: `peak.amplitude * 5` for each detected peak. -/
def lightningInitialSegments (data : List ℕ) : List ℚ :=
  (electricityPeaks data).map (fun peak => peak.2 * 5)

/-- The `electricity` renderer: faded background, neon stroke setup, one
jittered lightning bolt per detected peak, shadow reset at the end. -/
def renderElectricity (env : Env) (config : VisualizationConfig) (data : List ℕ) (time : ℚ)
    (k : ℕ) : List CanvasCmd × ℕ :=
  let N : ℚ := data.length
  let intro := [CanvasCmd.setFillRGBA 0 0 20 (1/10),
                CanvasCmd.fillRect 0 0 env.width env.height,
                CanvasCmd.setStrokeStr ("#00ffff"), CanvasCmd.setLineWidth 2,
                CanvasCmd.setShadowColor ("#00ffff"), CanvasCmd.setShadowBlur 10]
  let bolts := (electricityPeaks data).foldl
    (fun (acc : List CanvasCmd × ℕ) peak =>
      let startX := (peak.1 : ℚ) / N * env.width
      let startY := env.height / 2
      let endX := startX + (env.rnd acc.2 - 1/2) * 200
      let endY := startY + (env.rnd (acc.2 + 1) - 1/2) * 200
      let r := drawLightning env startX startY endX endY (peak.2 * 5) (acc.2 + 2)
      (acc.1 ++ r.1, r.2)) ([], k)
  (intro ++ bolts.1 ++ [CanvasCmd.setShadowBlur 0], bolts.2)

/-- The `particles` renderer: bins below amplitude 0.1 spawn nothing; others
spawn `floor(amplitude * 10)` particles at random angle and distance. -/
def renderParticles (env : Env) (config : VisualizationConfig) (data : List ℕ) (time : ℚ)
    (k : ℕ) : List CanvasCmd × ℕ :=
  let N : ℚ := data.length
  let intro := [CanvasCmd.setFillRGBA 0 0 0 (1/20),
                CanvasCmd.fillRect 0 0 env.width env.height]
  (List.range data.length).foldl
    (fun (acc : List CanvasCmd × ℕ) i =>
      let amplitude : ℚ := (data.getD i 0 : ℚ) / 255
      if amplitude < 1/10 then acc
      else
        let particleCount := (⌊amplitude * 10⌋).toNat
        (List.range particleCount).foldl
          (fun (acc2 : List CanvasCmd × ℕ) _p =>
            let angle := env.rnd acc2.2 * env.pi * 2
            let distance := env.rnd (acc2.2 + 1) * amplitude * 200
            let x := env.width / 2 + env.cos angle * distance
            let y := env.height / 2 + env.sin angle * distance
            let hue := jsRem ((i : ℚ) / N * 360 + time * 100) 360
            (acc2.1 ++ [CanvasCmd.setFillHSLA hue 70 60 amplitude, CanvasCmd.beginPath,
                        CanvasCmd.arc x y (amplitude * 5) 0 (env.pi * 2), CanvasCmd.fill],
             acc2.2 + 2)) acc)
    (intro, k)

/-- The `waveform` renderer: a single connected polyline over the time-domain
snapshot. -/
def renderWaveform (env : Env) (config : VisualizationConfig) (timeData : List ℕ) :
    List CanvasCmd :=
  let sliceWidth : ℚ := env.width / (timeData.length : ℚ)
  CanvasCmd.setFillRGBA 0 0 0 (1/10) :: CanvasCmd.fillRect 0 0 env.width env.height ::
    CanvasCmd.setStrokeStr ("#8B5CF6") :: CanvasCmd.setLineWidth 3 :: CanvasCmd.beginPath ::
    ((List.range timeData.length).map (fun i =>
        let v : ℚ := (timeData.getD i 0 : ℚ) / 128
        let y := v * env.height / 2
        let x := (i : ℚ) * sliceWidth
        if i = 0 then CanvasCmd.moveTo x y else CanvasCmd.lineTo x y) ++
      [CanvasCmd.stroke])

/-- The `spectrum` renderer (default fallback): one gradient bar per bin. -/
def renderSpectrum (env : Env) (config : VisualizationConfig) (data : List ℕ) :
    List CanvasCmd :=
  let barWidth : ℚ := env.width / (data.length : ℚ)
  CanvasCmd.setFillRGBA 15 15 35 (1/10) :: CanvasCmd.fillRect 0 0 env.width env.height ::
    (List.range data.length).flatMap (fun i =>
      let barHeight : ℚ := ((data.getD i 0 : ℚ) / 255) * env.height * (4/5)
      let x : ℚ := (i : ℚ) * barWidth
      [CanvasCmd.setFillLinearGradient 0 env.height 0 (env.height - barHeight)
         [(0, "#8B5CF6"), (1, "#F59E0B")],
       CanvasCmd.fillRect x (env.height - barHeight) (barWidth - 1) barHeight])

/-! ## Rendering engine lifecycle (`VisualizationEngine.start` / `stop`)

The render loop is a cooperative single-threaded callback loop: `animate`
first re-arms itself through `requestAnimationFrame` (storing the returned
id in `this.animationId`), then pulls a snapshot and dispatches on the
algorithm id; `start` calls `stop()` and then invokes `animate`
synchronously; `stop` cancels the stored id.  The host scheduler is modelled
explicitly: a registry of pending callbacks, from which the host may fire
any pending id.  Callbacks are represented by the data their closures
capture; engine callbacks additionally carry a ghost generation number that
identifies which `start` call armed them. -/

/-- What a pending host callback will do when fired. -/
inductive Callback
  | engineAnimate (gen : ℕ) (type : String) (config : VisualizationConfig)
  | aiAnimate (isPlaying : Bool) (images : List String)
deriving DecidableEq, Repr

/-- Source tag of one drawn frame (ghost instrumentation). -/
inductive FrameSrc
  | engine (gen : ℕ) (type : String)
  | ai
deriving DecidableEq, Repr

/-- One callback execution's worth of drawing: its source and the canvas
commands it issued. -/
structure FrameDraw where
  src : FrameSrc
  cmds : List CanvasCmd
deriving DecidableEq, Repr

/-- Mirror of the `VisualizationEngine` instance fields that the lifecycle
reads and writes (`animationId`; browser ids start at 1, so `Option` exactly
captures the `if (this.animationId)` truthiness test). -/
structure EngineObj where
  animationId : Option ℕ
deriving DecidableEq, Repr

/-- The world: the engine object, the host's callback registry and id
counter, the canvas (a history of per-callback frame draws), plus ghost
counters — frames elapsed, latest `start` generation — and the position in
the random stream. -/
structure World where
  engine : EngineObj
  nextId : ℕ
  pending : List (ℕ × Callback)
  canvas : List FrameDraw
  frames : ℕ
  gen : ℕ
  rndCtr : ℕ
deriving DecidableEq, Repr

/-- A fresh world: no callback armed, nothing drawn. -/
def World.init : World :=
  { engine := { animationId := none }, nextId := 1, pending := [], canvas := [],
    frames := 0, gen := 0, rndCtr := 0 }

/-- The `switch (type)` dispatch inside `animate`: the seven known algorithm
ids, `default` falling through to `renderSpectrum`.  Returns the issued
commands and the advanced random-stream counter. -/
def dispatchRender (env : Env) (type : String) (config : VisualizationConfig)
    (frame : ℕ) (k : ℕ) : List CanvasCmd × ℕ :=
  let data := env.data frame
  let time := env.timeAt frame
  if type = "milkdrop" then (renderMilkdrop env config data time, k)
  else if type = "fractals" then (renderFractals env config data time, k)
  else if type = "fire" then (renderFire env config data time, k)
  else if type = "electricity" then renderElectricity env config data time k
  else if type = "particles" then renderParticles env config data time k
  else if type = "waveform" then (renderWaveform env config (env.timeData frame), k)
  else (renderSpectrum env config data, k)

/-- One execution of the engine's `animate` closure: re-arm first
(`this.animationId = requestAnimationFrame(animate)`), then snapshot and
dispatch, appending one frame draw to the canvas. -/
def engineAnimateBody (env : Env) (gen : ℕ) (type : String) (config : VisualizationConfig)
    (w : World) : World :=
  let id := w.nextId
  let r := dispatchRender env type config w.frames w.rndCtr
  { engine := { animationId := some id }
    nextId := id + 1
    pending := w.pending ++ [(id, Callback.engineAnimate gen type config)]
    canvas := w.canvas ++ [{ src := FrameSrc.engine gen type, cmds := r.1 }]
    frames := w.frames + 1
    gen := w.gen
    rndCtr := r.2 }

/-- Model of `VisualizationEngine.stop`: cancel the stored animation id, if any. -/
def stopOp (w : World) : World :=
  match w.engine.animationId with
  | some id =>
    { w with engine := { animationId := none },
             pending := w.pending.filter (fun p => p.1 != id) }
  | none => w

/-- Model of `VisualizationEngine.start(type, config)`: `stop()` first, then invoke
`animate` synchronously (which draws the first frame and arms the next).
The generation counter is ghost state identifying this loop. -/
def startOp (env : Env) (type : String) (config : VisualizationConfig) (w : World) : World :=
  let w1 := stopOp w
  engineAnimateBody env (w1.gen + 1) type config { w1 with gen := w1.gen + 1 }

/-- One execution of the AI compositor's `animate` closure
(`renderAIVisualsInternal`, non-empty image list): return if the captured
`isPlaying` is false; otherwise re-arm (the returned id is *not* stored
anywhere), snapshot, and draw the image placeholder frame with the
audio-reactive pulse transform. -/
def aiAnimateBody (env : Env) (isPlaying : Bool) (images : List String) (w : World) : World :=
  if isPlaying then
    let id := w.nextId
    let data := env.data w.frames
    let avgAmplitude : ℚ := ((data.map (fun v => (v : ℚ))).sum) / (data.length : ℚ) / 255
    let imageIndex := (⌊avgAmplitude * (images.length : ℚ)⌋).toNat % images.length
    let scale := 1 + avgAmplitude * (1/10)
    let cmds :=
      [CanvasCmd.setFillRGBA 0 0 0 (1/10 - avgAmplitude * (1/20)),
       CanvasCmd.fillRect 0 0 env.width env.height,
       CanvasCmd.save,
       CanvasCmd.translate (env.width / 2) (env.height / 2),
       CanvasCmd.scale scale scale,
       CanvasCmd.translate (-(env.width / 2)) (-(env.height / 2)),
       CanvasCmd.setFillStr ("#8B5CF6"),
       CanvasCmd.setFont ("16px Inter"),
       CanvasCmd.setTextAlign ("center"),
       CanvasCmd.fillText ("AI Image " ++ toString (imageIndex + 1)) (env.width / 2)
         (env.height / 2),
       CanvasCmd.fillText (if images.getD imageIndex ("") ≠ "" then ("Generated") else ("Loading..."))
         (env.width / 2) (env.height / 2 + 30),
       CanvasCmd.restore]
    { w with nextId := id + 1
             pending := w.pending ++ [(id, Callback.aiAnimate isPlaying images)]
             canvas := w.canvas ++ [{ src := FrameSrc.ai, cmds := cmds }]
             frames := w.frames + 1 }
  else w

/-- The fixed configuration the AI compositor passes to its fallback
`start('milkdrop', …)` call. -/
def aiFallbackConfig : VisualizationConfig :=
  { sensitivity := 75, colorScheme := "rainbow", smoothing := 50, beatDetection := true }

/-- Model of `renderAIVisualsInternal(canvas, analyser, images)`: with an empty image
list it delegates to `engine.start('milkdrop', …)` and returns; otherwise it
starts its own (untracked) animate loop, whose first run happens
synchronously. -/
def renderAIVisuals (env : Env) (isPlaying : Bool) (images : List String) (w : World) : World :=
  if images.isEmpty then startOp env ("milkdrop") aiFallbackConfig w
  else aiAnimateBody env isPlaying images w

/-- Host action: fire the pending callback with the given id (a no-op if the
id is not pending, e.g. because it was canceled).  The browser dequeues the
callback and runs it. -/
def fireOp (env : Env) (id : ℕ) (w : World) : World :=
  match w.pending.find? (fun p => p.1 == id) with
  | none => w
  | some (_, Callback.engineAnimate gen type config) =>
    engineAnimateBody env gen type config
      { w with pending := w.pending.filter (fun p => p.1 != id) }
  | some (_, Callback.aiAnimate isPlaying images) =>
    aiAnimateBody env isPlaying images
      { w with pending := w.pending.filter (fun p => p.1 != id) }

/-- A host schedule: fire a sequence of ids in order. -/
def fireSeq (env : Env) (ids : List ℕ) (w : World) : World :=
  ids.foldl (fun w id => fireOp env id w) w

/-- Number of `stroke` commands in a command list (each jagged lightning
polyline and each fractal segment issues exactly one `stroke`). -/
def strokeCount (cmds : List CanvasCmd) : ℕ :=
  cmds.countP (fun c => c == CanvasCmd.stroke)

/-! ## Concrete instances used by counterexamples and witnesses -/

/-- A concrete environment: 800×450 canvas (the preview canvas size), silent
snapshots, constant stand-ins for the abstract functions. -/
def env0 : Env :=
  { width := 800, height := 450, pi := 355/113,
    cos := fun _ => 1, sin := fun _ => 0, rnd := fun _ => 1/2,
    data := fun _ => [], timeData := fun _ => [], timeAt := fun n => n }

/-- The frequency snapshot of the electricity peak-detection example. -/
def peakExampleData : List ℕ := [0, 50, 120, 40, 200, 190, 210, 30]

/-- Example caption timeline of the lookup example: entries covering [0,2]
and [3,5]. -/
def lyricExampleEntries : List SRTEntry :=
  [{ id := 1, startTime := 0, endTime := 2, text := ['a'] },
   { id := 2, startTime := 3, endTime := 5, text := ['b'] }]

/-- A two-block SRT input with blocks in reverse chronological order, a tag
in one text, and a trailing block with only two lines. -/
def srtExampleInput : List Char :=
  ("2\n00:00:03,000 --> 00:00:05,500\n<i>world</i>\n\n" ++
   "1\n00:00:00,000 --> 00:00:02,000\nhello\n\n99\nbadline").toList

/-- An SRT input whose single block declares a reversed time range. -/
def srtReversedInput : List Char :=
  "1\n00:00:05,000 --> 00:00:01,000\nhi".toList

/-! ## Helper lemmas -/

/-- The peak index list is the filtered interior-bin scan of the source loop. -/
theorem electricityPeakIndices_eq (data : List ℕ) :
    electricityPeakIndices data =
      (List.range data.length).filter (fun i =>
        decide (1 ≤ i) && decide (i + 1 < data.length) &&
        decide (data.getD (i - 1) 0 < data.getD i 0) &&
        decide (data.getD (i + 1) 0 < data.getD i 0) &&
        decide (100 < data.getD i 0)) := by
  simp only [electricityPeakIndices, electricityPeaks, List.map_map]
  exact List.map_id'' (fun _ => rfl) _

/-- Membership in the peak index list, unfolded to the scan conditions. -/
theorem mem_electricityPeakIndices (data : List ℕ) (i : ℕ) :
    i ∈ electricityPeakIndices data ↔
      1 ≤ i ∧ i + 1 < data.length ∧
      data.getD (i - 1) 0 < data.getD i 0 ∧
      data.getD (i + 1) 0 < data.getD i 0 ∧
      100 < data.getD i 0 := by
  rw [electricityPeakIndices_eq]
  simp only [List.mem_filter, List.mem_range, Bool.and_eq_true, decide_eq_true_eq]
  constructor
  · rintro ⟨-, ⟨⟨⟨h1, h2⟩, h3⟩, h4⟩, h5⟩
    exact ⟨h1, h2, h3, h4, h5⟩
  · rintro ⟨h1, h2, h3, h4, h5⟩
    exact ⟨by omega, ⟨⟨⟨h1, h2⟩, h3⟩, h4⟩, h5⟩

/-- Stroke-command count distributes over append. -/
theorem strokeCount_append (a b : List CanvasCmd) :
    strokeCount (a ++ b) = strokeCount a + strokeCount b := by
  simp [strokeCount, List.countP_append]

/-- A fractal branch at depth `d` draws `2^d - 1` stroked segments. -/
theorem strokeCount_drawFractalBranch (env : Env) :
    ∀ (d : ℕ) (x y angle len amp : ℚ),
      strokeCount (drawFractalBranch env x y angle len d amp) = 2 ^ d - 1 := by
  intro d
  induction d with
  | zero => intro x y angle len amp; simp [drawFractalBranch, strokeCount]
  | succ d ih =>
    intro x y angle len amp
    have h1 : 1 ≤ 2 ^ d := Nat.one_le_two_pow
    have h2 : 2 ^ (d + 1) = 2 ^ d + 2 ^ d := by rw [pow_succ]; omega
    simp only [drawFractalBranch, strokeCount, List.countP_cons, List.countP_append]
    simp only [← strokeCount.eq_1, ih]
    simp [strokeCount]
    omega

/-- Counting strokes over the 8-angle loop of `renderFractals`. -/
theorem strokeCount_flatMap_const (g : ℕ → List CanvasCmd) (m : ℕ)
    (h : ∀ i, strokeCount (g i) = m) :
    ∀ n : ℕ, strokeCount ((List.range n).flatMap g) = n * m := by
  intro n
  induction n with
  | zero => simp [strokeCount]
  | succ n ih =>
    rw [List.range_succ, List.flatMap_append, strokeCount_append, ih]
    simp [h n, Nat.succ_mul]

/-! ## Claims -/

/-- C1 counterexample: on the snapshot `[0,50,120,40,200,190,210,30]` the
electricity peak scan detects the index set `{2, 4, 6}` — index 6 qualifies
(210 > 190, 210 > 30, 210 > 100) — not `{2, 4}` as claimed. -/
theorem claim_C1_counterexample :
    electricityPeakIndices peakExampleData = [2, 4, 6] ∧
    electricityPeakIndices peakExampleData ≠ [2, 4] := by
  constructor <;> decide

/-- C1 amended: the electricity peak detection scans only interior bins and
requires a value strictly greater than 100 and strictly greater than both
neighbors (an equal neighbor disqualifies, as the tie example shows; edge
bins are never peaks); on the snapshot `[0,50,120,40,200,190,210,30]` it
detects exactly the index set `{2, 4, 6}`. -/
theorem claim_C1_amended :
    (∀ (data : List ℕ) (i : ℕ), i ∈ electricityPeakIndices data ↔
        1 ≤ i ∧ i + 1 < data.length ∧
        data.getD (i - 1) 0 < data.getD i 0 ∧
        data.getD (i + 1) 0 < data.getD i 0 ∧
        100 < data.getD i 0) ∧
    electricityPeakIndices peakExampleData = [2, 4, 6] ∧
    electricityPeakIndices [0, 150, 150, 0] = [] := by
  refine ⟨mem_electricityPeakIndices, by decide, by decide⟩

/-- C1 amended witness: concrete instance of the characterization at the
example snapshot and peak index 2. -/
theorem claim_C1_amended_witness :
    2 ∈ electricityPeakIndices peakExampleData ∧
    0 ∉ electricityPeakIndices peakExampleData := by
  constructor
  · exact (claim_C1_amended.1 peakExampleData 2).2 (by decide)
  · intro h
    have := (claim_C1_amended.1 peakExampleData 0).1 h
    omega

/-- C2: for every environment, snapshot, configuration and time, one frame of
the fractals algorithm strokes exactly 15 segments per base angle and, over
the 8 base angles, exactly 120 segments per frame, independently of the
amplitude values; depth 0 is the base case drawing nothing. -/
theorem claim_C2 :
    ∀ (env : Env) (config : VisualizationConfig) (data : List ℕ) (time : ℚ),
      strokeCount (renderFractals env config data time) = 120 ∧
      (∀ x y angle len amp : ℚ,
        strokeCount (drawFractalBranch env x y angle len 4 amp) = 15) ∧
      (∀ x y angle len amp : ℚ, drawFractalBranch env x y angle len 0 amp = []) := by
  intro env config data time
  have hbranch : ∀ x y angle len amp : ℚ,
      strokeCount (drawFractalBranch env x y angle len 4 amp) = 15 := by
    intro x y angle len amp
    rw [strokeCount_drawFractalBranch]
    norm_num
  refine ⟨?_, hbranch, fun x y angle len amp => rfl⟩
  simp only [renderFractals, strokeCount, List.countP_cons]
  simp only [← strokeCount.eq_1]
  rw [strokeCount_flatMap_const _ 15 (fun i => hbranch _ _ _ _ _) 8]
  simp [strokeCount]

/-- For any negative starting depth the fueled fractal evaluator never
completes: the `depth === 0` guard is never hit and every recursion level
consumes fuel. -/
theorem fractalBranchDiverges_of_neg : ∀ d : ℤ, d < 0 → fractalBranchDiverges d := by
  intro d hd env fuel
  induction fuel generalizing d with
  | zero => intro x y angle len amp; rfl
  | succ fuel ih =>
    intro x y angle len amp
    have hne : d ≠ 0 := by omega
    have hrec := ih (d - 1) (by omega)
    simp only [drawFractalBranchFuel, if_neg hne, hrec]

/-- With any fuel exceeding a nonnegative depth, the fueled fractal evaluator
completes. -/
theorem fractalBranchFuel_total :
    ∀ (fuel : ℕ) (env : Env) (d : ℤ) (x y angle len amp : ℚ), 0 ≤ d → d < fuel →
      ∃ cmds, drawFractalBranchFuel env fuel x y angle len d amp = some cmds := by
  intro fuel
  induction fuel with
  | zero => intro env d x y angle len amp h0 h1; omega
  | succ fuel ih =>
    intro env d x y angle len amp h0 h1
    by_cases hz : d = 0
    · exact ⟨[], by simp [drawFractalBranchFuel, hz]⟩
    · obtain ⟨c1, hc1⟩ := ih env (d - 1)
        (x + env.cos angle * len) (y + env.sin angle * len)
        (angle - 1/2 - amp) (len * (7/10)) amp (by omega) (by omega)
      obtain ⟨c2, hc2⟩ := ih env (d - 1)
        (x + env.cos angle * len) (y + env.sin angle * len)
        (angle + 1/2 + amp) (len * (7/10)) amp (by omega) (by omega)
      refine ⟨CanvasCmd.beginPath :: CanvasCmd.moveTo x y ::
        CanvasCmd.lineTo (x + env.cos angle * len) (y + env.sin angle * len) ::
        CanvasCmd.stroke :: (c1 ++ c2), ?_⟩
      simp only [drawFractalBranchFuel, if_neg hz, hc1, hc2]

/-- The `segments <= 0` defensive floor of `drawLightning`: immediate return,
no drawing, random stream untouched. -/
theorem drawLightning_nonpos (env : Env) (x1 y1 x2 y2 s : ℚ) (k : ℕ) (h : s ≤ 0) :
    drawLightning env x1 y1 x2 y2 s k = ([], k) := by
  rw [drawLightning]
  simp [h]

/-- Call-trace recurrence of `drawLightning`: above 1 segment, the two
recursive calls receive `segments - 1`. -/
theorem drawLightningArgs_rec (s : ℚ) (h : 1 < s) :
    drawLightningArgs s = s :: (drawLightningArgs (s - 1) ++ drawLightningArgs (s - 1)) := by
  rw [drawLightningArgs]
  have h0 : ¬ s ≤ 0 := by linarith
  simp [h0, h]

/-- Call-trace base cases of `drawLightning`. -/
theorem drawLightningArgs_base (s : ℚ) (h : ¬ 1 < s) : drawLightningArgs s = [s] := by
  by_cases h0 : s ≤ 0
  · rw [drawLightningArgs]; simp [h0]
  · rw [drawLightningArgs]; simp [h0, h]

/-- A lightning bolt whose `segments` argument is a positive integer `n`
strokes exactly `2^n - 1` jittered polylines (the count obtained by starting
at `n` and decrementing by one at each recursion level). -/
theorem strokeCount_drawLightning_nat :
    ∀ (n : ℕ), 1 ≤ n → ∀ (env : Env) (x1 y1 x2 y2 : ℚ) (k : ℕ),
      strokeCount (drawLightning env x1 y1 x2 y2 (n : ℚ) k).1 = 2 ^ n - 1 := by
  intro n hn
  induction n, hn using Nat.le_induction with
  | base =>
    intro env x1 y1 x2 y2 k
    rw [drawLightning]
    norm_num
    simp [strokeCount]
  | succ n hn ih =>
    intro env x1 y1 x2 y2 k
    have hn1 : (1 : ℚ) ≤ (n : ℚ) := by exact_mod_cast hn
    have hpos : ¬ ((n + 1 : ℕ) : ℚ) ≤ 0 := by push_cast; linarith
    have hgt : (1 : ℚ) < ((n + 1 : ℕ) : ℚ) := by push_cast; linarith
    have hc : ((n + 1 : ℕ) : ℚ) - 1 = (n : ℚ) := by push_cast; ring
    rw [drawLightning, if_neg hpos, dif_pos hgt]
    simp only [hc, strokeCount_append]
    rw [ih, ih]
    have h1 : 1 ≤ 2 ^ n := Nat.one_le_two_pow
    have h2 : 2 ^ (n + 1) = 2 ^ n + 2 ^ n := by rw [pow_succ]; omega
    simp [strokeCount]
    omega

/-- C9 counterexample: `drawFractalBranch` does not return immediately for
every `depth ≤ 0` — its guard is exactly `depth === 0`, so at the concrete
input `depth = -1` the recursion never reaches the base case: the fueled
evaluator fails for every fuel (in particular it has not returned after the
first step, as `fuel = 1` shows). -/
theorem claim_C9_counterexample :
    fractalBranchDiverges (-1) ∧ ((-1 : ℤ) ≤ 0) ∧
    drawFractalBranchFuel env0 1 0 0 0 0 (-1) 0 = none := by
  refine ⟨fractalBranchDiverges_of_neg (-1) (by omega), by omega, rfl⟩

/-- C9 amended: `drawLightning` has the defensive floor as claimed — any
`segments ≤ 0` returns immediately with no drawing and terminates for every
argument value — but `drawFractalBranch` returns immediately only at
`depth = 0`; every negative depth diverges (no fuel completes it), while
every nonnegative depth terminates. -/
theorem claim_C9_amended :
    (∀ (env : Env) (x1 y1 x2 y2 s : ℚ) (k : ℕ), s ≤ 0 →
        drawLightning env x1 y1 x2 y2 s k = ([], k)) ∧
    (∀ (env : Env) (x y angle len amp : ℚ), drawFractalBranch env x y angle len 0 amp = []) ∧
    (∀ d : ℤ, d < 0 → fractalBranchDiverges d) ∧
    (∀ (env : Env) (fuel : ℕ) (d : ℤ) (x y angle len amp : ℚ), 0 ≤ d → d < fuel →
        ∃ cmds, drawFractalBranchFuel env fuel x y angle len d amp = some cmds) := by
  refine ⟨?_, fun env x y angle len amp => rfl, fractalBranchDiverges_of_neg, ?_⟩
  · intro env x1 y1 x2 y2 s k h
    exact drawLightning_nonpos env x1 y1 x2 y2 s k h
  · intro env fuel d x y angle len amp h0 h1
    exact fractalBranchFuel_total fuel env d x y angle len amp h0 h1

/-- C9 amended witness: the floor at concrete inputs — `drawLightning` with
`segments = -3` returns immediately, `drawFractalBranch` at depth 0 draws
nothing, depth `-2` diverges, and depth `3` completes with fuel 4. -/
theorem claim_C9_amended_witness :
    drawLightning env0 0 0 9 9 (-3) 7 = ([], 7) ∧
    drawFractalBranch env0 1 2 3 4 0 5 = [] ∧
    fractalBranchDiverges (-2) ∧
    (∃ cmds, drawFractalBranchFuel env0 4 0 0 0 100 3 0 = some cmds) := by
  refine ⟨claim_C9_amended.1 env0 0 0 9 9 (-3) 7 (by norm_num),
    claim_C9_amended.2.1 env0 1 2 3 4 5,
    claim_C9_amended.2.2.1 (-2) (by omega),
    claim_C9_amended.2.2.2 env0 4 3 0 0 0 100 0 (by omega) (by omega)⟩

/-- C5 counterexample: on the snapshot `[0,50,120,40,200,190,210,30]` the
three detected peaks launch lightning bolts with initial segment counts
`40/17, 200/51, 70/17` — `peak.amplitude * 5`, none equal to the claimed
fixed 5 and not all equal to each other — and the recursion decrements the
count by 1 rather than halving it: the first child call under `segments = 5`
receives 4, not 5/2. -/
theorem claim_C5_counterexample :
    lightningInitialSegments peakExampleData = [40/17, 200/51, 70/17] ∧
    (40/17 : ℚ) ≠ 5 ∧ (200/51 : ℚ) ≠ 40/17 ∧
    (drawLightningArgs 5).get? 1 = some 4 ∧ (4 : ℚ) ≠ 5 / 2 := by
  have hfilter : (List.range peakExampleData.length).filter (fun i =>
      decide (1 ≤ i) && decide (i + 1 < peakExampleData.length) &&
      decide (peakExampleData.getD (i - 1) 0 < peakExampleData.getD i 0) &&
      decide (peakExampleData.getD (i + 1) 0 < peakExampleData.getD i 0) &&
      decide (100 < peakExampleData.getD i 0)) = [2, 4, 6] := by decide
  refine ⟨?_, by norm_num, by norm_num, ?_, by norm_num⟩
  · simp only [lightningInitialSegments, electricityPeaks, hfilter, List.map_map,
      List.map_cons, List.map_nil, Function.comp]
    norm_num [peakExampleData]
  · rw [drawLightningArgs_rec 5 (by norm_num)]
    norm_num
    rw [drawLightningArgs_rec 4 (by norm_num)]
    simp

/-- C5 amended: for every detected peak, `renderElectricity` launches its
lightning bolt with initial segment count `peak.amplitude * 5` — dependent on
the amplitude, at most 5 for byte-valued snapshots — and the segment count
decreases by 1 at each recursion level (recursing while the count exceeds 1,
returning immediately at or below 0), so a bolt started at a positive integer
count `n` strokes exactly `2^n - 1` polylines. -/
theorem claim_C5_amended :
    (∀ data : List ℕ, lightningInitialSegments data =
        (electricityPeaks data).map (fun peak => peak.2 * 5)) ∧
    (∀ data : List ℕ, (∀ v ∈ data, v ≤ 255) →
        ∀ a ∈ lightningInitialSegments data, a ≤ 5) ∧
    (∀ s : ℚ, 1 < s →
        drawLightningArgs s = s :: (drawLightningArgs (s - 1) ++ drawLightningArgs (s - 1))) ∧
    (∀ s : ℚ, s ≤ 0 → drawLightningArgs s = [s]) ∧
    (∀ (n : ℕ), 1 ≤ n → ∀ (env : Env) (x1 y1 x2 y2 : ℚ) (k : ℕ),
        strokeCount (drawLightning env x1 y1 x2 y2 (n : ℚ) k).1 = 2 ^ n - 1) := by
  refine ⟨fun data => rfl, ?_, drawLightningArgs_rec, ?_, strokeCount_drawLightning_nat⟩
  · intro data hdata a ha
    simp only [lightningInitialSegments, List.mem_map] at ha
    obtain ⟨peak, hp, rfl⟩ := ha
    simp only [electricityPeaks, List.mem_map, List.mem_filter, List.mem_range] at hp
    obtain ⟨i, ⟨hi, _⟩, rfl⟩ := hp
    have hv : data.getD i 0 ≤ 255 := by
      have hmem : data.getD i 0 ∈ data := by
        rw [List.getD_eq_getElem data 0 hi]
        exact List.getElem_mem hi
      exact hdata _ hmem
    have hvq : ((data.getD i 0 : ℕ) : ℚ) ≤ 255 := by exact_mod_cast hv
    have hv0 : (0 : ℚ) ≤ ((data.getD i 0 : ℕ) : ℚ) := Nat.cast_nonneg _
    linarith
  · intro s h
    by_cases h1 : 1 < s
    · linarith
    · exact drawLightningArgs_base s h1

/-- C5 amended witness: concrete instances — the initial arguments on the
example snapshot, the recurrence at `s = 3`, the floor at `s = -1`, and the
stroke count of a bolt started at 2 segments. -/
theorem claim_C5_amended_witness :
    lightningInitialSegments peakExampleData =
      (electricityPeaks peakExampleData).map (fun peak => peak.2 * 5) ∧
    drawLightningArgs 3 = 3 :: (drawLightningArgs 2 ++ drawLightningArgs 2) ∧
    drawLightningArgs (-1) = [-1] ∧
    strokeCount (drawLightning env0 0 0 10 10 ((2 : ℕ) : ℚ) 0).1 = 2 ^ 2 - 1 := by
  have h3 := claim_C5_amended.2.2.1 3 (by norm_num)
  norm_num at h3
  refine ⟨claim_C5_amended.1 peakExampleData, h3,
    claim_C5_amended.2.2.2.1 (-1) (by norm_num),
    claim_C5_amended.2.2.2.2 2 (by norm_num) env0 0 0 10 10 0⟩

/-- The `stop` call never touches the canvas. -/
theorem stopOp_canvas (w : World) : (stopOp w).canvas = w.canvas := by
  cases h : w.engine.animationId <;> simp [stopOp, h]

/-- The `stop` call never touches the frame counter. -/
theorem stopOp_frames (w : World) : (stopOp w).frames = w.frames := by
  cases h : w.engine.animationId <;> simp [stopOp, h]

/-- The `stop` call never touches the random counter. -/
theorem stopOp_rndCtr (w : World) : (stopOp w).rndCtr = w.rndCtr := by
  cases h : w.engine.animationId <;> simp [stopOp, h]

/-- The `stop` call never touches the generation counter. -/
theorem stopOp_gen (w : World) : (stopOp w).gen = w.gen := by
  cases h : w.engine.animationId <;> simp [stopOp, h]

/-- The `stop` call never touches the host id counter. -/
theorem stopOp_nextId (w : World) : (stopOp w).nextId = w.nextId := by
  cases h : w.engine.animationId <;> simp [stopOp, h]

/-- On an engine with no armed callback, `stop` is the identity. -/
theorem stopOp_of_none (w : World) (h : w.engine.animationId = none) : stopOp w = w := by
  simp [stopOp, h]

/-- A `start` call appends exactly one frame to the canvas: the synchronous first
run of `animate`, drawing with the newly selected algorithm. -/
theorem startOp_canvas (env : Env) (type : String) (config : VisualizationConfig) (w : World) :
    (startOp env type config w).canvas =
      w.canvas ++ [{ src := FrameSrc.engine (w.gen + 1) type,
                     cmds := (dispatchRender env type config w.frames w.rndCtr).1 }] := by
  simp [startOp, engineAnimateBody, stopOp_canvas, stopOp_frames, stopOp_rndCtr, stopOp_gen]

/-- On a quiescent world (nothing pending, nothing armed), `start` arms
exactly one callback of the new generation and stores its id. -/
theorem startOp_fresh (env : Env) (type : String) (config : VisualizationConfig) (w : World)
    (h1 : w.pending = []) (h2 : w.engine.animationId = none) :
    (startOp env type config w).pending =
      [(w.nextId, Callback.engineAnimate (w.gen + 1) type config)] ∧
    (startOp env type config w).engine.animationId = some w.nextId ∧
    (startOp env type config w).gen = w.gen + 1 ∧
    (startOp env type config w).nextId = w.nextId + 1 := by
  rw [startOp, stopOp_of_none w h2]
  simp [engineAnimateBody, h1]

/-- Firing any id on a world with an empty callback registry does nothing. -/
theorem fireOp_empty (env : Env) (id : ℕ) (w : World) (h : w.pending = []) :
    fireOp env id w = w := by
  simp [fireOp, h]

/-- A whole fire schedule does nothing when the registry is empty. -/
theorem fireSeq_empty (env : Env) (ids : List ℕ) (w : World) (h : w.pending = []) :
    fireSeq env ids w = w := by
  induction ids with
  | nil => rfl
  | cons i ids ih =>
    show fireSeq env ids (fireOp env i w) = w
    rw [fireOp_empty env i w h, ih]

/-- C3 counterexample: `start('milkdrop', …)` followed immediately by
`stop()` does not leave the drawing surface untouched — `start` invokes the
`animate` closure synchronously, so by the time `stop` returns one frame
(here with its two background draw commands) is already on the canvas. -/
theorem claim_C3_counterexample :
    (stopOp (startOp env0 ("milkdrop") aiFallbackConfig World.init)).canvas.map
        (fun f => f.cmds.length) = [2] ∧
    (stopOp (startOp env0 ("milkdrop") aiFallbackConfig World.init)).canvas ≠
      World.init.canvas := by
  rw [stopOp_canvas, startOp_canvas]
  refine ⟨?_, by simp [World.init]⟩
  simp [World.init, dispatchRender, renderMilkdrop, env0]

/-- C3 amended: `start` synchronously draws one frame before returning, so
`start` then `stop` before any host frame fires leaves exactly that one
frame on the surface; after `stop` returns, nothing is pending or armed and
no host schedule can ever draw again. -/
theorem claim_C3_amended (env : Env) (type : String) (config : VisualizationConfig)
    (w : World) (ids : List ℕ) (h1 : w.pending = []) (h2 : w.engine.animationId = none) :
    (stopOp (startOp env type config w)).canvas = w.canvas ++
      [{ src := FrameSrc.engine (w.gen + 1) type,
         cmds := (dispatchRender env type config w.frames w.rndCtr).1 }] ∧
    (stopOp (startOp env type config w)).pending = [] ∧
    (stopOp (startOp env type config w)).engine.animationId = none ∧
    fireSeq env ids (stopOp (startOp env type config w)) =
      stopOp (startOp env type config w) := by
  obtain ⟨hp, ha, -, -⟩ := startOp_fresh env type config w h1 h2
  have hpend : (stopOp (startOp env type config w)).pending = [] := by
    simp [stopOp, ha, hp]
  refine ⟨?_, hpend, ?_, fireSeq_empty env ids _ hpend⟩
  · rw [stopOp_canvas, startOp_canvas]
  · simp [stopOp, ha]

/-- C3 amended witness: the concrete start-stop pair on a fresh world. -/
theorem claim_C3_amended_witness :
    (stopOp (startOp env0 ("fractals") aiFallbackConfig World.init)).pending = [] ∧
    (stopOp (startOp env0 ("fractals") aiFallbackConfig World.init)).engine.animationId = none ∧
    fireSeq env0 [1, 2, 7] (stopOp (startOp env0 ("fractals") aiFallbackConfig World.init)) =
      stopOp (startOp env0 ("fractals") aiFallbackConfig World.init) := by
  obtain ⟨-, h2, h3, h4⟩ :=
    claim_C3_amended env0 ("fractals") aiFallbackConfig World.init [1, 2, 7] rfl rfl
  exact ⟨h2, h3, h4⟩

/-- C7: the AI-image compositor invoked with an empty image sequence is the
very same world transition as an explicit `start('milkdrop', …)` with the
compositor's fixed fallback configuration — same algorithm selection, same
drawing output — and it does draw (the synchronous milkdrop frame is
appended, and a milkdrop frame is never an empty command list). -/
theorem claim_C7 (env : Env) (isPlaying : Bool) (w : World) :
    renderAIVisuals env isPlaying [] w = startOp env ("milkdrop") aiFallbackConfig w ∧
    (renderAIVisuals env isPlaying [] w).canvas = w.canvas ++
      [{ src := FrameSrc.engine (w.gen + 1) "milkdrop",
         cmds := renderMilkdrop env aiFallbackConfig (env.data w.frames)
           (env.timeAt w.frames) }] ∧
    renderMilkdrop env aiFallbackConfig (env.data w.frames) (env.timeAt w.frames) ≠ [] := by
  have hdelegate : renderAIVisuals env isPlaying [] w =
      startOp env ("milkdrop") aiFallbackConfig w := rfl
  have hdisp : dispatchRender env ("milkdrop") aiFallbackConfig w.frames w.rndCtr =
      (renderMilkdrop env aiFallbackConfig (env.data w.frames) (env.timeAt w.frames),
        w.rndCtr) := by
    simp [dispatchRender]
  refine ⟨hdelegate, ?_, by simp [renderMilkdrop]⟩
  rw [hdelegate, startOp_canvas, hdisp]

/-- A `start` call on a world whose `stop` leaves nothing pending: exactly one new
callback of the fresh generation is armed and its id stored. -/
theorem startOp_arm (env : Env) (type : String) (config : VisualizationConfig) (w : World)
    (hsp : (stopOp w).pending = []) :
    (startOp env type config w).pending =
      [(w.nextId, Callback.engineAnimate (w.gen + 1) type config)] ∧
    (startOp env type config w).engine.animationId = some w.nextId ∧
    (startOp env type config w).gen = w.gen + 1 := by
  rw [startOp]
  simp [engineAnimateBody, hsp, stopOp_nextId, stopOp_gen]

/-- A `stop` call on a world whose only pending callback is the armed one cancels
it, emptying the registry. -/
theorem stopOp_cancel_armed (w : World) (id : ℕ) (cb : Callback)
    (hp : w.pending = [(id, cb)]) (ha : w.engine.animationId = some id) :
    (stopOp w).pending = [] := by
  simp [stopOp, ha, hp]

/-- Invariant of the running loop: if the registry holds exactly one engine
callback of generation `g` and algorithm `t`, then any host fire schedule
keeps the registry in that shape (fresh ids, same generation and algorithm)
and only ever appends frames tagged with that generation and algorithm. -/
theorem fireSeq_single_engine (env : Env) (ids : List ℕ) :
    ∀ (w : World) (g : ℕ) (t : String) (c : VisualizationConfig) (id0 n : ℕ),
      w.pending = [(id0, Callback.engineAnimate g t c)] →
      n ≤ w.canvas.length →
      (∀ f ∈ w.canvas.drop n, f.src = FrameSrc.engine g t) →
      ∃ id1, (fireSeq env ids w).pending = [(id1, Callback.engineAnimate g t c)] ∧
        n ≤ (fireSeq env ids w).canvas.length ∧
        ∀ f ∈ (fireSeq env ids w).canvas.drop n, f.src = FrameSrc.engine g t := by
  induction ids with
  | nil => intro w g t c id0 n hp hn hc; exact ⟨id0, hp, hn, hc⟩
  | cons i ids ih =>
    intro w g t c id0 n hp hn hc
    have hstep : fireSeq env (i :: ids) w = fireSeq env ids (fireOp env i w) := rfl
    rw [hstep]
    by_cases hi : id0 = i
    · subst hi
      have hfind : w.pending.find? (fun p => p.1 == id0) =
          some (id0, Callback.engineAnimate g t c) := by
        rw [hp]; simp
      have hfil : w.pending.filter (fun p => p.1 != id0) = [] := by
        rw [hp]; simp
      have hfire : fireOp env id0 w =
          engineAnimateBody env g t c { w with pending := [] } := by
        simp only [fireOp, hfind, hfil]
      rw [hfire]
      refine ih _ g t c w.nextId n ?_ ?_ ?_
      · simp [engineAnimateBody]
      · simp only [engineAnimateBody, List.length_append, List.length_singleton]
        omega
      · intro f hf
        simp only [engineAnimateBody] at hf
        rw [List.drop_append_of_le_length hn] at hf
        rcases List.mem_append.mp hf with hf1 | hf2
        · exact hc f hf1
        · simp only [List.mem_singleton] at hf2
          rw [hf2]
    · have hfind : w.pending.find? (fun p => p.1 == i) = none := by
        rw [hp]
        simp [hi]
      have hfire : fireOp env i w = w := by
        simp only [fireOp, hfind]
      rw [hfire]
      exact ih w g t c id0 n hp hn hc

/-- C8: calling `start` twice in succession cancels the first loop entirely:
the two starts belong to different (ghost) generations; immediately after the
second start, every pending callback is a second-generation callback of the
second algorithm — nothing armed by the first start remains, so no callback
armed by the first start can ever execute — and every frame drawn by any host
schedule after the second start is tagged with the second loop's generation
and algorithm, so the first algorithm never draws into any frame after the
second start begins. -/
theorem claim_C8 (env : Env) (t1 t2 : String) (c1 c2 : VisualizationConfig) (w : World)
    (ids : List ℕ) (h1 : w.pending = []) (h2 : w.engine.animationId = none) :
    (startOp env t1 c1 w).gen ≠ (startOp env t2 c2 (startOp env t1 c1 w)).gen ∧
    (∀ p ∈ (startOp env t2 c2 (startOp env t1 c1 w)).pending,
      p.2 = Callback.engineAnimate (startOp env t2 c2 (startOp env t1 c1 w)).gen t2 c2) ∧
    ∀ f ∈ (fireSeq env ids (startOp env t2 c2 (startOp env t1 c1 w))).canvas.drop
        (startOp env t2 c2 (startOp env t1 c1 w)).canvas.length,
      f.src = FrameSrc.engine (startOp env t2 c2 (startOp env t1 c1 w)).gen t2 := by
  have hsp0 : (stopOp w).pending = [] := by rw [stopOp_of_none w h2, h1]
  obtain ⟨hp1, ha1, hg1⟩ := startOp_arm env t1 c1 w hsp0
  have hsp1 : (stopOp (startOp env t1 c1 w)).pending = [] :=
    stopOp_cancel_armed _ _ _ hp1 ha1
  obtain ⟨hp2, ha2, hg2⟩ := startOp_arm env t2 c2 (startOp env t1 c1 w) hsp1
  refine ⟨by omega, ?_, ?_⟩
  · intro p hp
    rw [hp2, List.mem_singleton] at hp
    rw [hp, hg2, hg1]
  · obtain ⟨id1, -, -, hinv⟩ := fireSeq_single_engine env ids
      (startOp env t2 c2 (startOp env t1 c1 w))
      (startOp env t2 c2 (startOp env t1 c1 w)).gen t2 c2
      (startOp env t1 c1 w).nextId
      (startOp env t2 c2 (startOp env t1 c1 w)).canvas.length
      (by rw [hp2, hg2]) (le_refl _)
      (by intro f hf; rw [List.drop_length] at hf; cases hf)
    exact hinv

/-- C8 witness: the double start on a fresh world with a concrete fire
schedule. -/
theorem claim_C8_witness :
    (startOp env0 ("fire") aiFallbackConfig World.init).gen ≠
      (startOp env0 ("waveform") aiFallbackConfig
        (startOp env0 ("fire") aiFallbackConfig World.init)).gen ∧
    ∀ f ∈ (fireSeq env0 [2, 3, 4]
        (startOp env0 ("waveform") aiFallbackConfig
          (startOp env0 ("fire") aiFallbackConfig World.init))).canvas.drop
        (startOp env0 ("waveform") aiFallbackConfig
          (startOp env0 ("fire") aiFallbackConfig World.init)).canvas.length,
      f.src = FrameSrc.engine
        (startOp env0 ("waveform") aiFallbackConfig
          (startOp env0 ("fire") aiFallbackConfig World.init)).gen ("waveform") := by
  obtain ⟨hgen, -, hdrawn⟩ := claim_C8 env0 ("fire") ("waveform") aiFallbackConfig
    aiFallbackConfig World.init [2, 3, 4] rfl rfl
  exact ⟨hgen, hdrawn⟩

/-- Characterization of `List.find?` as the first match: a found element
splits the list, with every earlier element failing the predicate. -/
theorem find?_first_split {α : Type} (p : α → Bool) :
    ∀ (l : List α) (a : α), l.find? p = some a →
      p a = true ∧ ∃ pre post, l = pre ++ a :: post ∧ ∀ x ∈ pre, p x = false := by
  intro l
  induction l with
  | nil => intro a h; cases h
  | cons b l ih =>
    intro a h
    by_cases hb : p b = true
    · rw [List.find?_cons_of_pos l hb] at h
      obtain rfl : b = a := by injection h
      exact ⟨hb, [], l, rfl, by intro x hx; cases hx⟩
    · rw [List.find?_cons_of_neg l hb] at h
      obtain ⟨hpa, pre, post, rfl, hpre⟩ := ih a h
      refine ⟨hpa, b :: pre, post, rfl, ?_⟩
      intro x hx
      rcases List.mem_cons.mp hx with rfl | hx2
      · exact Bool.eq_false_iff.mpr (fun hc => hb hc)
      · exact hpre x hx2

/-- Elements of the stripped text come from the original text: stripping
only deletes characters. -/
theorem mem_stripTagsAux {x : Char} :
    ∀ (fuel : ℕ) (l : List Char), x ∈ stripTagsAux fuel l → x ∈ l := by
  intro fuel
  induction fuel with
  | zero => intro l h; cases l <;> exact h
  | succ fuel ih =>
    intro l h
    cases l with
    | nil => exact h
    | cons c r =>
      by_cases hc : (c == '<' && r.contains '>') = true
      · rw [stripTagsAux, if_pos hc] at h
        have h1 : x ∈ (r.dropWhile (· != '>')).drop 1 := ih _ h
        have h2 : List.Sublist ((r.dropWhile (· != '>')).drop 1) r :=
          (List.drop_sublist 1 (r.dropWhile (· != '>'))).trans (List.dropWhile_sublist _)
        exact List.mem_cons_of_mem c (h2.mem h1)
      · rw [stripTagsAux, if_neg hc] at h
        rcases List.mem_cons.mp h with rfl | h2
        · exact List.mem_cons_self x r
        · exact List.mem_cons_of_mem c (ih r h2)

/-- With sufficient fuel (the input length always suffices), the stripped
text contains no complete HTML-like tag: every kept `<` has no `>` anywhere
to its right. -/
theorem hasTag_stripTagsAux :
    ∀ (fuel : ℕ) (l : List Char), l.length ≤ fuel → hasTag (stripTagsAux fuel l) = false := by
  intro fuel
  induction fuel with
  | zero =>
    intro l h
    have hl : l = [] := List.length_eq_zero.mp (Nat.le_zero.mp h)
    subst hl
    rfl
  | succ fuel ih =>
    intro l h
    cases l with
    | nil => rfl
    | cons c r =>
      simp only [List.length_cons, Nat.add_le_add_iff_right] at h
      by_cases hc : (c == '<' && r.contains '>') = true
      · rw [stripTagsAux, if_pos hc]
        refine ih _ (le_trans ?_ h)
        calc ((r.dropWhile (· != '>')).drop 1).length
            ≤ (r.dropWhile (· != '>')).length :=
              (List.drop_sublist 1 _).length_le
          _ ≤ r.length := (List.dropWhile_sublist _).length_le
      · rw [stripTagsAux, if_neg hc]
        have hrest : hasTag (stripTagsAux fuel r) = false := ih r h
        rw [hasTag, hrest, Bool.or_false]
        by_cases hlt : c = '<'
        · subst hlt
          have hr : r.contains '>' = false := by
            cases hcr : r.contains '>'
            · rfl
            · exact absurd (by rw [hcr]; rfl) hc
          have hrm : ('>' : Char) ∉ r := by simpa using hr
          have hnm : ('>' : Char) ∉ stripTagsAux fuel r :=
            fun hmem => hrm (mem_stripTagsAux fuel r hmem)
          have hcf : (stripTagsAux fuel r).contains '>' = false := by simpa using hnm
          rw [hcf, Bool.and_false]
        · have : (c == '<') = false := by simp [hlt]
          rw [this, Bool.false_and]

/-- The text of every parsed entry is tag-free. -/
theorem hasTag_stripTags (l : List Char) : hasTag (stripTags l) = false :=
  hasTag_stripTagsAux l.length l le_rfl

/-- Membership across the stable insertion. -/
theorem mem_insertByStart (e x : SRTEntry) :
    ∀ l : List SRTEntry, x ∈ insertByStart e l ↔ x = e ∨ x ∈ l := by
  intro l
  induction l with
  | nil => simp [insertByStart]
  | cons f r ih =>
    simp only [insertByStart]
    by_cases h : e.startTime < f.startTime
    · rw [if_pos h]
      simp [List.mem_cons]
    · rw [if_neg h]
      simp only [List.mem_cons, ih]
      tauto

/-- The sort permutes nothing in and nothing out. -/
theorem mem_sortByStart (x : SRTEntry) :
    ∀ l : List SRTEntry, x ∈ sortByStart l ↔ x ∈ l := by
  intro l
  induction l with
  | nil => simp [sortByStart]
  | cons e r ih =>
    simp only [sortByStart, mem_insertByStart, ih, List.mem_cons]

/-- Stable insertion preserves sortedness by start time. -/
theorem insertByStart_sorted (e : SRTEntry) :
    ∀ l : List SRTEntry, l.Pairwise (fun a b => a.startTime ≤ b.startTime) →
      (insertByStart e l).Pairwise (fun a b => a.startTime ≤ b.startTime) := by
  intro l
  induction l with
  | nil => intro _; simp [insertByStart]
  | cons f r ih =>
    intro h
    rw [List.pairwise_cons] at h
    obtain ⟨hf, hr⟩ := h
    simp only [insertByStart]
    by_cases hc : e.startTime < f.startTime
    · rw [if_pos hc, List.pairwise_cons]
      refine ⟨?_, List.pairwise_cons.mpr ⟨hf, hr⟩⟩
      intro x hx
      rcases List.mem_cons.mp hx with rfl | hx2
      · exact le_of_lt hc
      · exact le_trans (le_of_lt hc) (hf x hx2)
    · rw [if_neg hc, List.pairwise_cons]
      refine ⟨?_, ih hr⟩
      intro x hx
      rcases (mem_insertByStart e x r).mp hx with rfl | hx2
      · exact le_of_not_lt hc
      · exact hf x hx2

/-- The output of the sort is sorted ascending by start time. -/
theorem sortByStart_sorted :
    ∀ l : List SRTEntry,
      (sortByStart l).Pairwise (fun a b => a.startTime ≤ b.startTime) := by
  intro l
  induction l with
  | nil => simp [sortByStart]
  | cons e r ih => exact insertByStart_sorted e (sortByStart r) ih

/-- Every successfully parsed block yields an entry with nonnegative parsed
times and tag-free text. -/
theorem parseBlock_fields (b : List Char) (e : SRTEntry) (h : parseBlock b = some e) :
    0 ≤ e.startTime ∧ 0 ≤ e.endTime ∧ hasTag e.text = false := by
  unfold parseBlock at h
  split at h
  case h_2 => exact absurd h (by simp)
  case h_1 l0 l1 l2 rest =>
    split at h
    case h_1 => exact absurd h (by simp)
    case h_2 n hn =>
      split at h
      case h_1 => exact absurd h (by simp)
      case h_2 =>
        rename_i a1 a2 a3 a4 b1 b2 b3 b4 hg
        simp only [Option.some.injEq] at h
        subst h
        refine ⟨?_, ?_, hasTag_stripTags _⟩
        · show (0 : ℚ) ≤ parseTime a1 a2 a3 a4
          unfold parseTime
          positivity
        · show (0 : ℚ) ≤ parseTime b1 b2 b3 b4
          unfold parseTime
          positivity

/-- C4: for every input string, `parseSRT` returns entries sorted ascending
by `startTime` regardless of block order in the input; a block with fewer
than 3 lines, an unparsable first line, or a second line not matching the
time-range pattern contributes no entry (it is skipped — the embedding is
total, so no error is raised); and the text of every returned entry is free
of HTML-like markup tags. -/
theorem claim_C4 (content : List Char) :
    (parseSRT content).Pairwise (fun a b => a.startTime ≤ b.startTime) ∧
    (∀ e ∈ parseSRT content, hasTag e.text = false) ∧
    (∀ b : List Char, ((jsTrim b).splitOn '\n').length < 3 → parseBlock b = none) ∧
    (∀ (b : List Char) (l0 l1 : List Char) (ls : List (List Char)),
      (jsTrim b).splitOn '\n' = l0 :: l1 :: ls → jsParseInt l0 = none →
      parseBlock b = none) ∧
    (∀ (b : List Char) (l0 l1 : List Char) (ls : List (List Char)),
      (jsTrim b).splitOn '\n' = l0 :: l1 :: ls → searchTimeRange l1 = none →
      parseBlock b = none) := by
  refine ⟨sortByStart_sorted _, ?_, ?_, ?_, ?_⟩
  · intro e he
    rw [parseSRT, mem_sortByStart, List.mem_filterMap] at he
    obtain ⟨b, -, hb⟩ := he
    exact (parseBlock_fields b e hb).2.2
  · intro b hlen
    unfold parseBlock
    split
    case h_2 => rfl
    case h_1 l0 l1 l2 rest heq =>
      rw [heq] at hlen
      simp only [List.length_cons] at hlen
      omega
  · intro b l0 l1 ls heq hid
    cases ls with
    | nil =>
      unfold parseBlock
      simp only [heq]
    | cons l2 rest =>
      unfold parseBlock
      simp only [heq]
      rw [hid]
  · intro b l0 l1 ls heq htime
    cases ls with
    | nil =>
      unfold parseBlock
      simp only [heq]
    | cons l2 rest =>
      unfold parseBlock
      simp only [heq]
      cases hn : jsParseInt l0 with
      | none => rfl
      | some n =>
        rw [htime]

/-- C4 witness: on the concrete two-block reverse-ordered input with a tag
and a trailing 2-line block, the output is sorted and tag-free, and the
2-line block parses to nothing. -/
theorem claim_C4_witness :
    (parseSRT srtExampleInput).Pairwise (fun a b => a.startTime ≤ b.startTime) ∧
    (∀ e ∈ parseSRT srtExampleInput, hasTag e.text = false) ∧
    parseBlock ("99\nbadline".toList) = none := by
  obtain ⟨h1, h2, h3, -, -⟩ := claim_C4 srtExampleInput
  exact ⟨h1, h2, h3 ("99\nbadline".toList) (by decide)⟩

/-- C6: `getCurrentLyric` returns the first entry in list order whose
interval contains the time (`none` exactly when no entry contains it);
`getUpcomingLyric` returns the first entry in list order starting strictly
after the time (`none` exactly when there is none); on the example timeline
`[{0,2,"a"},{3,5,"b"}]`: at `t = 1` the current entry is `"a"`, at `t = 5/2`
there is no current entry, and the upcoming entry is `"b"`. -/
theorem claim_C6 (entries : List SRTEntry) (t : ℚ) :
    (getCurrentLyric entries t = none ↔
      ∀ e ∈ entries, ¬ (e.startTime ≤ t ∧ t ≤ e.endTime)) ∧
    (∀ e, getCurrentLyric entries t = some e →
      (e.startTime ≤ t ∧ t ≤ e.endTime) ∧
      ∃ pre post, entries = pre ++ e :: post ∧
        ∀ f ∈ pre, ¬ (f.startTime ≤ t ∧ t ≤ f.endTime)) ∧
    (getUpcomingLyric entries t = none ↔ ∀ e ∈ entries, ¬ t < e.startTime) ∧
    (∀ e, getUpcomingLyric entries t = some e →
      t < e.startTime ∧
      ∃ pre post, entries = pre ++ e :: post ∧ ∀ f ∈ pre, ¬ t < f.startTime) ∧
    getCurrentLyric lyricExampleEntries 1 =
      some { id := 1, startTime := 0, endTime := 2, text := ['a'] } ∧
    getCurrentLyric lyricExampleEntries (5/2) = none ∧
    getUpcomingLyric lyricExampleEntries (5/2) =
      some { id := 2, startTime := 3, endTime := 5, text := ['b'] } := by
  refine ⟨?_, ?_, ?_, ?_, ?_, ?_, ?_⟩
  · rw [getCurrentLyric, List.find?_eq_none]
    constructor
    · intro h e he hc
      exact h e he (by simp [hc.1, hc.2])
    · intro h e he hb
      simp only [Bool.and_eq_true, decide_eq_true_eq] at hb
      exact h e he hb
  · intro e he
    obtain ⟨hp, pre, post, rfl, hpre⟩ := find?_first_split _ entries e he
    simp only [Bool.and_eq_true, decide_eq_true_eq] at hp
    refine ⟨hp, pre, post, rfl, ?_⟩
    intro f hf hc
    have := hpre f hf
    simp only [Bool.and_eq_true, decide_eq_true_eq] at this
    rw [Bool.and_eq_false_iff] at this
    rcases this with h1 | h2
    · exact (by simpa using h1 : ¬ f.startTime ≤ t) hc.1
    · exact (by simpa using h2 : ¬ t ≤ f.endTime) hc.2
  · rw [getUpcomingLyric, List.find?_eq_none]
    constructor
    · intro h e he hc
      exact h e he (by simp [hc])
    · intro h e he hb
      simp only [decide_eq_true_eq] at hb
      exact h e he hb
  · intro e he
    obtain ⟨hp, pre, post, rfl, hpre⟩ := find?_first_split _ entries e he
    simp only [decide_eq_true_eq] at hp
    refine ⟨hp, pre, post, rfl, ?_⟩
    intro f hf hc
    have := hpre f hf
    simp only [decide_eq_false_iff_not] at this
    exact this hc
  · norm_num [getCurrentLyric, lyricExampleEntries, List.find?]
  · norm_num [getCurrentLyric, lyricExampleEntries, List.find?]
  · norm_num [getUpcomingLyric, lyricExampleEntries, List.find?]

/-- C6 witness: the three concrete lookups, obtained from the theorem. -/
theorem claim_C6_witness :
    getCurrentLyric lyricExampleEntries 1 =
      some { id := 1, startTime := 0, endTime := 2, text := ['a'] } ∧
    getCurrentLyric lyricExampleEntries (5/2) = none ∧
    getUpcomingLyric lyricExampleEntries (5/2) =
      some { id := 2, startTime := 3, endTime := 5, text := ['b'] } := by
  obtain ⟨-, -, -, -, h5, h6, h7⟩ := claim_C6 lyricExampleEntries 1
  exact ⟨h5, h6, h7⟩

/-- C10 counterexample: `parseSRT` does not enforce `startTime ≤ endTime` —
the single-block input whose time-range line is reversed
(`00:00:05,000 --> 00:00:01,000`) parses to an entry with `startTime = 5`
and `endTime = 1`, violating the invariant. -/
theorem claim_C10_counterexample :
    parseSRT srtReversedInput =
      [{ id := 1, startTime := parseTime 0 0 5 0, endTime := parseTime 0 0 1 0,
         text := "hi".toList }] ∧
    parseTime 0 0 5 0 = 5 ∧ parseTime 0 0 1 0 = 1 ∧ ¬ ((5 : ℚ) ≤ 1) := by
  refine ⟨rfl, ?_, ?_, by norm_num⟩
  · unfold parseTime; norm_num
  · unfold parseTime; norm_num

/-- C10 amended: every entry returned by `parseSRT` carries the times its
block declares — both always nonnegative — and `startTime ≤ endTime` holds
for every entry whenever every successfully parsed block of the input
declares an ordered range (the parser itself never rejects a reversed
range). -/
theorem claim_C10_amended (content : List Char) :
    (∀ e ∈ parseSRT content, 0 ≤ e.startTime ∧ 0 ≤ e.endTime) ∧
    ((∀ b ∈ splitBlocks (jsTrim content), ∀ e, parseBlock b = some e →
        e.startTime ≤ e.endTime) →
      ∀ e ∈ parseSRT content, e.startTime ≤ e.endTime) := by
  constructor
  · intro e he
    rw [parseSRT, mem_sortByStart, List.mem_filterMap] at he
    obtain ⟨b, -, hb⟩ := he
    exact ⟨(parseBlock_fields b e hb).1, (parseBlock_fields b e hb).2.1⟩
  · intro hord e he
    rw [parseSRT, mem_sortByStart, List.mem_filterMap] at he
    obtain ⟨b, hbmem, hb⟩ := he
    exact hord b hbmem e hb

/-- C10 amended witness: on a concrete well-ordered input, every entry of
the output satisfies the invariant; the per-block hypothesis is discharged
by evaluation. -/
theorem claim_C10_amended_witness :
    ∀ e ∈ parseSRT ("1\n00:00:01,000 --> 00:00:02,000\nok".toList),
      e.startTime ≤ e.endTime := by
  refine (claim_C10_amended _).2 ?_
  intro b hb e heb
  have hblocks : splitBlocks (jsTrim ("1\n00:00:01,000 --> 00:00:02,000\nok".toList)) =
      [("1\n00:00:01,000 --> 00:00:02,000\nok".toList)] := by decide
  rw [hblocks, List.mem_singleton] at hb
  subst hb
  have hpb : parseBlock ("1\n00:00:01,000 --> 00:00:02,000\nok".toList) =
      some { id := 1, startTime := parseTime 0 0 1 0, endTime := parseTime 0 0 2 0,
             text := "ok".toList } := rfl
  rw [hpb, Option.some.injEq] at heb
  subst heb
  show parseTime 0 0 1 0 ≤ parseTime 0 0 2 0
  unfold parseTime
  norm_num
